import Mathlib

/-!
Verification of the beacon Minecraft front-door proxy.

This file gives a shallow embedding of the protocol codec
(`protocol/read.go`, `protocol/stream.go`, the packet builder), the
ping/handshake codec (the `ping` package), the routing tables and the
per-connection state machine (`handler/handler.go`), and proves the
specified properties about them.

Conventions of the embedding:
* a byte stream is a `List Nat` of byte values (real wire bytes are
  `< 256`; theorems that need this carry it as a hypothesis);
* Go `int` / `int64` values are Lean `Int` with twos-complement
  conversions made explicit (`toUInt64`, `toSigned`);
* Go `uint64` arithmetic is `Nat` arithmetic reduced `% 2 ^ 64` where Go
  truncates;
* fallible reads return `Except Err` together with the advanced stream
  state where the caller can keep going after a failure.
-/

set_option maxRecDepth 10000

namespace Beacon

/-- Error kinds produced by the pure model: `eof` is Go io.EOF,
`unexpectedEof` is io.ErrUnexpectedEOF, `invalidData` is
protocol.ErrInvalidData. -/
inductive Err
  | eof
  | unexpectedEof
  | invalidData
deriving DecidableEq

/-- Go conversion `uint64(x)` of an `int64`, as a natural number. -/
def toUInt64 (x : Int) : Nat := (x % (2 : Int) ^ 64).toNat

/-- Reinterpretation of the low `w` bits of a natural number as a signed
twos-complement integer: Go casts `int16(u16)`, `int32(u32)`, `int64(u64)`. -/
def toSigned (w : Nat) (n : Nat) : Int :=
  if n % 2 ^ w < 2 ^ (w - 1) then ((n % 2 ^ w : Nat) : Int)
  else ((n % 2 ^ w : Nat) : Int) - 2 ^ w

/-- Model of `Stream.ReadFull` (protocol/stream.go): `io.ReadFull` on the
connection, reading exactly `k` bytes.  Reading zero bytes succeeds
without touching the stream; an empty stream gives `io.EOF`; a short
stream gives `io.ErrUnexpectedEOF`. -/
def readFull (k : Nat) (s : List Nat) : Except Err (List Nat × List Nat) :=
  if k = 0 then .ok ([], s)
  else if s.length = 0 then .error .eof
  else if s.length < k then .error .unexpectedEof
  else .ok (s.take k, s.drop k)

/-- Model of `Stream.DecodeReadFull` (protocol/stream.go): `io.ReadFull` followed by
an in-place reversal of the buffer. -/
def decodeReadFull (k : Nat) (s : List Nat) : Except Err (List Nat × List Nat) :=
  (readFull k s).map (fun p => (p.1.reverse, p.2))

/-- Model of `binary.LittleEndian` decoding of a byte buffer:
`b[0] + 256*b[1] + ...` . -/
def leValue : List Nat → Nat
  | [] => 0
  | b :: bs => b + 256 * leValue bs

/-- Model of `Stream.ReadUInt16` (protocol/read.go): `DecodeReadFull` of 2 bytes,
then `binary.LittleEndian.Uint16`. -/
def ReadUInt16 (s : List Nat) : Except Err (Nat × List Nat) :=
  (decodeReadFull 2 s).map (fun p => (leValue p.1, p.2))

/-- Model of `Stream.ReadInt16` (protocol/read.go): `DecodeReadFull` of 2 bytes,
then `int16(binary.LittleEndian.Uint16(b))`. -/
def ReadInt16 (s : List Nat) : Except Err (Int × List Nat) :=
  (decodeReadFull 2 s).map (fun p => (toSigned 16 (leValue p.1), p.2))

/-- Model of `Stream.ReadInt32` (protocol/read.go): `DecodeReadFull` of 4 bytes,
then `int32(binary.LittleEndian.Uint32(b))`. -/
def ReadInt32 (s : List Nat) : Except Err (Int × List Nat) :=
  (decodeReadFull 4 s).map (fun p => (toSigned 32 (leValue p.1), p.2))

/-- Model of `Stream.ReadInt64` (protocol/read.go): `DecodeReadFull` of 8 bytes,
then `int64(binary.LittleEndian.Uint64(b))`. -/
def ReadInt64 (s : List Nat) : Except Err (Int × List Nat) :=
  (decodeReadFull 8 s).map (fun p => (toSigned 64 (leValue p.1), p.2))

/-- The loop body of `Stream.ReadVarInt64` (protocol/read.go), with the
running `size` counter and `num` accumulator.  Each byte contributes its
low 7 bits shifted by `7*size` (Go truncates the uint64 shift, hence the
`% 2 ^ 64`); the size check fires after the increment, i.e. on the 11th
byte read, before the terminator test. -/
def readVarIntLoop : Nat → Nat → List Nat → Except Err (Nat × List Nat)
  | _, _, [] => .error .eof
  | size, num, b :: rest =>
    let num2 := num ||| ((b &&& 127) <<< (7 * size)) % 2 ^ 64
    if size + 1 > 10 then .error .invalidData
    else if b &&& 128 = 0 then .ok (num2, rest)
    else readVarIntLoop (size + 1) num2 rest

/-- Model of `Stream.ReadVarInt64` (protocol/read.go): run the loop and
reinterpret the accumulated uint64 as an int64. -/
def ReadVarInt64 (s : List Nat) : Except Err (Int × List Nat) :=
  (readVarIntLoop 0 0 s).map (fun p => (toSigned 64 p.1, p.2))

/-- Model of `Stream.ReadVarInt` (protocol/read.go): `int(ReadVarInt64(..))`; Go
`int` is 64-bit here so the cast is the identity. -/
def ReadVarInt (s : List Nat) : Except Err (Int × List Nat) :=
  ReadVarInt64 s

/-- Model of `Stream.ReadString` (protocol/read.go): VarInt length, rejected when
negative, then exactly that many raw bytes. -/
def ReadString (s : List Nat) : Except Err (List Nat × List Nat) :=
  match ReadVarInt s with
  | .error e => .error e
  | .ok (len, r) =>
    if len < 0 then .error .invalidData
    else readFull len.toNat r

/-- The loop of `Packet.WriteVarInt64` (the packet builder), on the
unsigned 64-bit value: emit 7 bits per byte, low group first, high bit
set on every non-final byte. -/
def writeVarIntAux (ui : Nat) : List Nat :=
  if _h : ui < 128 then [ui]
  else (ui % 128 + 128) :: writeVarIntAux (ui / 128)
termination_by ui
decreasing_by exact Nat.div_lt_self (by omega) (by omega)

/-- Model of `Packet.WriteVarInt64`: reinterpret the int64 as uint64 and emit. -/
def WriteVarInt64 (x : Int) : List Nat := writeVarIntAux (toUInt64 x)

/-- Model of `Packet.WriteVarInt`: widen the Go int (64-bit) and emit. -/
def WriteVarInt (x : Int) : List Nat := WriteVarInt64 x

/-- Model of `binary.BigEndian.PutUintN`: the `w` big-endian bytes of a value. -/
def bePut : Nat → Nat → List Nat
  | 0, _ => []
  | w + 1, v => (v / 2 ^ (8 * w)) % 256 :: bePut w v

/-- Model of `Packet.WriteUInt16`: two big-endian bytes. -/
def WriteUInt16 (v : Nat) : List Nat := bePut 2 v

/-- Model of `Packet.WriteInt64`: eight big-endian bytes of `uint64(v)`. -/
def WriteInt64 (v : Int) : List Nat := bePut 8 (toUInt64 v)

/-- Model of `Packet.WriteString`: VarInt byte length, then the raw bytes. -/
def writeStringBytes (s : List Nat) : List Nat :=
  WriteVarInt (s.length : Int) ++ s

/-- Model of `Stream.WritePacket` (protocol/stream.go): the single coalesced write
`varint(len(p.Data)) ++ p.Data` that frames a packet on the wire. -/
def framePacket (d : List Nat) : List Nat :=
  WriteVarInt (d.length : Int) ++ d

/-- A `PacketStream` (protocol/stream.go): the `io.LimitedReader` budget
`N` (an int64, possibly negative) over the underlying connection bytes. -/
structure PS where
  n : Int
  rest : List Nat
deriving DecidableEq

/-- Model of `io.ReadFull` of `k` bytes through the `LimitedReader`: at most
`max N 0` bytes can be pulled before the limited reader reports EOF, and
at most the bytes the connection still has. -/
def psReadFull (k : Nat) (ps : PS) : Except Err (List Nat) × PS :=
  if k = 0 then (.ok [], ps)
  else if ps.n ≤ 0 then (.error .eof, ps)
  else
    let m := min k (min ps.n.toNat ps.rest.length)
    if m = k then (.ok (ps.rest.take k), ⟨ps.n - (k : Int), ps.rest.drop k⟩)
    else if m = 0 then (.error .eof, ps)
    else (.error .unexpectedEof, ⟨ps.n - (m : Int), ps.rest.drop m⟩)

/-- Model of `ReadVarInt64` running over a `PacketStream`: same loop as
`readVarIntLoop` but every `ReadByte` is budgeted. -/
def psReadVarIntLoop : Nat → Nat → Int → List Nat → Except Err Nat × Int × List Nat
  | _, _, n, [] => (.error .eof, n, [])
  | size, num, n, b :: rest =>
    if n ≤ 0 then (.error .eof, n, b :: rest)
    else
      let num2 := num ||| ((b &&& 127) <<< (7 * size)) % 2 ^ 64
      if size + 1 > 10 then (.error .invalidData, n - 1, rest)
      else if b &&& 128 = 0 then (.ok num2, n - 1, rest)
      else psReadVarIntLoop (size + 1) num2 (n - 1) rest

/-- Model of `ReadVarInt64` on a `PacketStream`. -/
def psReadVarInt64 (ps : PS) : Except Err Int × PS :=
  match psReadVarIntLoop 0 0 ps.n ps.rest with
  | (.ok v, n2, r2) => (.ok (toSigned 64 v), ⟨n2, r2⟩)
  | (.error e, n2, r2) => (.error e, ⟨n2, r2⟩)

/-- Model of `ReadVarInt` on a `PacketStream` (identity int cast, as above). -/
def psReadVarInt (ps : PS) : Except Err Int × PS := psReadVarInt64 ps

/-- Model of `ReadString` on a `PacketStream`. -/
def psReadString (ps : PS) : Except Err (List Nat) × PS :=
  match psReadVarInt ps with
  | (.error e, ps2) => (.error e, ps2)
  | (.ok len, ps2) =>
    if len < 0 then (.error .invalidData, ps2)
    else psReadFull len.toNat ps2

/-- Model of `DecodeReadFull` on a `PacketStream`. -/
def psDecodeReadFull (k : Nat) (ps : PS) : Except Err (List Nat) × PS :=
  match psReadFull k ps with
  | (.ok d, ps2) => (.ok d.reverse, ps2)
  | (.error e, ps2) => (.error e, ps2)

/-- Model of `ReadUInt16` on a `PacketStream`. -/
def psReadUInt16 (ps : PS) : Except Err Nat × PS :=
  match psDecodeReadFull 2 ps with
  | (.ok d, ps2) => (.ok (leValue d), ps2)
  | (.error e, ps2) => (.error e, ps2)

/-- Model of `ReadInt64` on a `PacketStream`. -/
def psReadInt64 (ps : PS) : Except Err Int × PS :=
  match psDecodeReadFull 8 ps with
  | (.ok d, ps2) => (.ok (toSigned 64 (leValue d)), ps2)
  | (.error e, ps2) => (.error e, ps2)

/-- Model of `PacketStream.ExhaustPacket` (protocol/stream.go): nothing to do on a
zero budget, otherwise read the whole remaining budget to the bit bucket.
(Go would panic on a negative budget when allocating the scratch buffer;
that state is never reached from a well-formed `GetPacketStream` with a
positive length, and here a negative budget just reads zero bytes.) -/
def exhaustPacket (ps : PS) : Except Err Nat × PS :=
  if ps.n = 0 then (.ok 0, ps)
  else
    match psReadFull ps.n.toNat ps with
    | (.ok _, ps2) => (.ok ps.n.toNat, ps2)
    | (.error e, ps2) => (.error e, ps2)

/-- Model of `Stream.GetPacketStream` (protocol/stream.go): read the VarInt frame
length; only the exact value 0 is rejected as invalid; the returned
`PacketStream` carries the (possibly negative) length as its budget. -/
def GetPacketStream (s : List Nat) : Except Err (PS × Int) :=
  match ReadVarInt s with
  | .error e => .error e
  | .ok (len, r) =>
    if len = 0 then .error .invalidData
    else .ok (⟨len, r⟩, len)

/-- The decoded handshake packet (the ping package). -/
structure Handshake where
  protocolVersion : Int
  serverAddress : List Nat
  serverPort : Nat
  nextState : Int
deriving DecidableEq

/-- The zero value `HandshakePacket\x7b\x7d` returned on a failed read. -/
def zeroHandshake : Handshake := ⟨0, [], 0, 0⟩

/-- Model of `ping.ReadHandshakePacket` over the packet stream: VarInt protocol
version, string server address, uint16 port, VarInt next state.  An
error in one of the first three fields returns the zero handshake; an
error on the last field returns the partially filled handshake, exactly
as the Go code returns `handshake, err` after the final assignment. -/
def psReadHandshakePacket (ps : PS) : (Handshake × Option Err) × PS :=
  match psReadVarInt ps with
  | (.error e, ps1) => ((zeroHandshake, some e), ps1)
  | (.ok pv, ps1) =>
    match psReadString ps1 with
    | (.error e, ps2) => ((zeroHandshake, some e), ps2)
    | (.ok addr, ps2) =>
      match psReadUInt16 ps2 with
      | (.error e, ps3) => ((zeroHandshake, some e), ps3)
      | (.ok port, ps3) =>
        match psReadVarInt ps3 with
        | (.error e, ps4) => ((⟨pv, addr, port, 0⟩, some e), ps4)
        | (.ok ns, ps4) => ((⟨pv, addr, port, ns⟩, none), ps4)

/-- The server-list status record (the ping package). -/
structure Status where
  onlinePlayers : Int
  maxPlayers : Int
  message : List Nat
  showConnection : Bool
  protocolNumber : Int
deriving DecidableEq

/-- A hex digit as Go encoding/json prints it (lowercase). -/
def hexDigit (n : Nat) : Nat := if n < 10 then 48 + n else 87 + n

/-- Go encoding/json escaping of one byte of a string (default
HTML-escaping encoder): quote, backslash, newline, carriage return and
tab get two-byte escapes, other control bytes and the HTML-significant
bytes get a six-byte u-escape, everything else is passed through. -/
def escapeByte (b : Nat) : List Nat :=
  if b = 34 then [92, 34]
  else if b = 92 then [92, 92]
  else if b = 10 then [92, 110]
  else if b = 13 then [92, 114]
  else if b = 9 then [92, 116]
  else if b < 32 then [92, 117, 48, 48, hexDigit (b / 16), hexDigit (b % 16)]
  else if b = 60 ∨ b = 62 ∨ b = 38 then [92, 117, 48, 48, hexDigit (b / 16), hexDigit (b % 16)]
  else [b]

/-- Go encoding/json escaping of a string body, byte by byte, with the
UTF-8 sequences of U+2028 and U+2029 replaced by their u-escapes.  (The
replacement of invalid UTF-8 is not modelled; inputs are assumed to be
well-formed UTF-8, which every string the program builds is.) -/
def goEscape : List Nat → List Nat
  | [] => []
  | 226 :: 128 :: 168 :: rest => [92, 117, 50, 48, 50, 56] ++ goEscape rest
  | 226 :: 128 :: 169 :: rest => [92, 117, 50, 48, 50, 57] ++ goEscape rest
  | b :: rest => escapeByte b ++ goEscape rest

/-- A JSON string literal as Go encoding/json emits it. -/
def quoteBytes (s : List Nat) : List Nat := 34 :: (goEscape s ++ [34])

/-- The decimal digits of a natural number, ASCII. -/
def natDecBytes (n : Nat) : List Nat :=
  if _h : n < 10 then [48 + n]
  else natDecBytes (n / 10) ++ [48 + n % 10]
termination_by n
decreasing_by exact Nat.div_lt_self (by omega) (by omega)

/-- A Go int as encoding/json emits it: optional minus sign, decimal. -/
def intDecBytes (i : Int) : List Nat :=
  if i < 0 then 45 :: natDecBytes i.natAbs else natDecBytes i.toNat

/-- The bytes of an ASCII string literal. -/
def asciiBytes (s : String) : List Nat := s.data.map Char.toNat

/-- The release table (the ping package): protocol number and name,
in ascending protocol order. -/
def releaseNames : List (Int × List Nat) :=
  [(4, asciiBytes ("1.7.5")), (5, asciiBytes ("1.7.10")),
   (47, asciiBytes ("1.8.9")), (107, asciiBytes ("1.9"))]

/-- The scan of `getReleaseName`: first entry whose protocol is at least
the requested one wins; otherwise the literal future. -/
def getReleaseNameAux : List (Int × List Nat) → Int → List Nat
  | [], _ => asciiBytes ("future")
  | r :: rest, p => if p ≤ r.1 then r.2 else getReleaseNameAux rest p

/-- Model of `getReleaseName` (the ping package). -/
def getReleaseName (p : Int) : List Nat := getReleaseNameAux releaseNames p

/-- The bytes `json.Marshal` produces for the status response struct:
fields in struct order (version, players, description), the version name
built as the beacon banner plus the release name. -/
def statusJSONBytes (st : Status) : List Nat :=
  asciiBytes ("\x7b\"version\":\x7b\"name\":")
    ++ quoteBytes (asciiBytes ("1lann/beacon ") ++ getReleaseName st.protocolNumber)
    ++ asciiBytes (",\"protocol\":") ++ intDecBytes st.protocolNumber
    ++ asciiBytes ("\x7d,\"players\":\x7b\"max\":") ++ intDecBytes st.maxPlayers
    ++ asciiBytes (",\"online\":") ++ intDecBytes st.onlinePlayers
    ++ asciiBytes ("\x7d,\"description\":") ++ quoteBytes st.message
    ++ asciiBytes ("\x7d")

/-- Model of `ping.WriteHandshakeResponse`: a packet with id 0x00 whose single
string field is the marshalled status JSON; this is the payload before
framing. -/
def writeHandshakeResponsePacket (st : Status) : List Nat :=
  WriteVarInt 0 ++ writeStringBytes (statusJSONBytes st)

/-- The bytes `WriteHandshakeResponse` puts on the wire (the framed
packet). -/
def writeHandshakeResponseBytes (st : Status) : List Nat :=
  framePacket (writeHandshakeResponsePacket st)

/-- Model of `ping.DisplayMessage`: packet id 0x00 carrying the JSON-encoded
scalar string of the message, framed. -/
def displayMessageBytes (msg : List Nat) : List Nat :=
  framePacket (WriteVarInt 0 ++ writeStringBytes (quoteBytes msg))

/-- Model of `ping.HandlePingPacket` on a plain stream: with `showConnection`
false the int64 nonce is read and dropped (read errors ignored) and
nothing is written; otherwise the nonce is echoed back in a framed
packet with id 0x01.  Result: (status, remaining input, bytes written). -/
def HandlePingPacket (st : Status) (s : List Nat) :
    Except Err Unit × List Nat × List Nat :=
  if !st.showConnection then
    (.ok (), (match ReadInt64 s with
              | .ok p => p.2
              | .error _ => []), [])
  else
    match ReadInt64 s with
    | .error e => (.error e, [], [])
    | .ok (t, r) => (.ok (), r, framePacket (WriteVarInt 1 ++ WriteInt64 t))

/-- Model of `ping.HandlePingPacket` as the connection handler calls it, over the
packet stream. -/
def psHandlePingPacket (st : Status) (ps : PS) :
    Except Err Unit × PS × List Nat :=
  if !st.showConnection then
    (.ok (), (psReadInt64 ps).2, [])
  else
    match psReadInt64 ps with
    | (.error e, ps2) => (.error e, ps2, [])
    | (.ok t, ps2) => (.ok (), ps2, framePacket (WriteVarInt 1 ++ WriteInt64 t))

/-- The per-connection player record (handler/handler.go); the Go
`ForwardAddress` string is empty when unset, `InitialPacket` is a nil
pointer when unset. -/
structure Player where
  ipAddress : List Nat
  username : List Nat
  hostname : List Nat
  shouldClose : Bool
  forwardAddress : List Nat
  initialPacket : Option (List Nat)
  state : Int
deriving DecidableEq

/-- The three process-wide routing maps (handler/handler.go), modelled
as functions from hostname bytes to optional bindings. -/
structure Tables where
  statuses : List Nat → Option Status
  handlers : List Nat → Option (Player → List Nat)
  forwarders : List Nat → Option (List Nat)

/-- Insertion into one of the maps. -/
def mapInsert {α : Type} (m : List Nat → Option α) (k : List Nat) (v : α) :
    List Nat → Option α :=
  fun x => if x = k then some v else m x

/-- Deletion from one of the maps. -/
def mapDelete {α : Type} (m : List Nat → Option α) (k : List Nat) :
    List Nat → Option α :=
  fun x => if x = k then none else m x

/-- Model of `strings.ToLower` restricted to ASCII input (hostnames in this
protocol are ASCII; the full Unicode mapping is not modelled). -/
def goToLower (s : List Nat) : List Nat :=
  s.map (fun b => if 65 ≤ b ∧ b ≤ 90 then b + 32 else b)

/-- Model of `handler.SetStatus`. -/
def SetStatus (tb : Tables) (hostnames : List (List Nat)) (st : Status) : Tables :=
  hostnames.foldl
    (fun tb h => { tb with statuses := mapInsert tb.statuses (goToLower h) st }) tb

/-- Model of `handler.Handle`: for each hostname, drop any forwarder binding, then
bind the handler. -/
def Handle (tb : Tables) (hostnames : List (List Nat)) (fn : Player → List Nat) :
    Tables :=
  hostnames.foldl
    (fun tb h =>
      let k := goToLower h
      let tb :=
        if (tb.forwarders k).isSome then
          { tb with forwarders := mapDelete tb.forwarders k }
        else tb
      { tb with handlers := mapInsert tb.handlers k fn }) tb

/-- Model of `handler.Forward`: for each hostname, drop any handler binding, then
bind the upstream address. -/
def Forward (tb : Tables) (hostnames : List (List Nat)) (address : List Nat) :
    Tables :=
  hostnames.foldl
    (fun tb h =>
      let k := goToLower h
      let tb :=
        if (tb.handlers k).isSome then
          { tb with handlers := mapDelete tb.handlers k }
        else tb
      { tb with forwarders := mapInsert tb.forwarders k address }) tb

/-- Model of `handler.ClearHandlers`: drop both the handler and the forwarder
binding for each hostname; statuses are untouched. -/
def ClearHandlers (tb : Tables) (hostnames : List (List Nat)) : Tables :=
  hostnames.foldl
    (fun tb h =>
      let k := goToLower h
      let tb :=
        if (tb.handlers k).isSome then
          { tb with handlers := mapDelete tb.handlers k }
        else tb
      if (tb.forwarders k).isSome then
        { tb with forwarders := mapDelete tb.forwarders k }
      else tb) tb

/-- The rejection message written when a login arrives for an unbound
hostname. -/
def rejectionMessage : List Nat :=
  asciiBytes ("Connection rejected. There is no server on this hostname.")

/-- Model of `handler.handlePacketID0`: the empty-body branch answers a status
request (or marks the connection for closing), the state-1 branch reads
the handshake — a read failure is only logged, the zero-value handshake
keeps being processed — and the state-2 branch reads the username and
writes a disconnect message.  Result: (player, packet stream, bytes
written to the client, error returned to the caller). -/
def handlePacketID0 (tb : Tables) (pl : Player) (ps : PS) :
    Player × PS × List Nat × Option Err :=
  if ps.n = 0 then
    if pl.state ≠ 1 then (pl, ps, [], none)
    else
      match tb.statuses pl.hostname with
      | none => ({ pl with shouldClose := true }, ps, [], none)
      | some st => (pl, ps, writeHandshakeResponseBytes st, none)
  else if pl.state = 1 then
    match psReadHandshakePacket ps with
    | ((hs, _e), ps1) =>
      let pl1 := { pl with hostname := goToLower hs.serverAddress }
      match tb.forwarders pl1.hostname with
      | some addr =>
        ({ pl1 with
            initialPacket := some (WriteVarInt 0 ++ WriteVarInt hs.protocolVersion
              ++ writeStringBytes hs.serverAddress ++ WriteUInt16 hs.serverPort
              ++ WriteVarInt hs.nextState),
            forwardAddress := addr,
            state := hs.nextState }, ps1, [], none)
      | none =>
        let pl2 :=
          if hs.nextState = 1 then { pl1 with state := 1 }
          else if hs.nextState = 2 then { pl1 with state := 2 }
          else pl1
        (pl2, ps1, [], none)
  else if pl.state = 2 then
    match psReadString ps with
    | (.error e, ps1) => (pl, ps1, [], some e)
    | (.ok u, ps1) =>
      let pl1 := { pl with username := u }
      match tb.handlers pl1.hostname with
      | none => (pl1, ps1, displayMessageBytes rejectionMessage, none)
      | some h => (pl1, ps1, displayMessageBytes (h pl1), none)
  else (pl, ps, [], none)

/-- Model of `handler.handlePacketID1`: nothing on an empty body, otherwise ping
handling with the bound status or the zero default (which swallows the
nonce). -/
def handlePacketID1 (tb : Tables) (pl : Player) (ps : PS) :
    Player × PS × List Nat × Option Err :=
  if ps.n = 0 then (pl, ps, [], none)
  else
    let st := (tb.statuses pl.hostname).getD ⟨0, 0, [], false, 0⟩
    match psHandlePingPacket st ps with
    | (.ok _, ps2, out) => (pl, ps2, out, none)
    | (.error e, ps2, out) => (pl, ps2, out, some e)

/-- The outcome of one iteration of the `packetLoop` in
`handler.handleConnection`: the connection is closed, or the loop
continues with the advanced stream, or it breaks out to the forwarder. -/
inductive StepResult
  | closed
  | cont (pl : Player) (rest : List Nat) (out : List Nat)
  | fwd (pl : Player) (rest : List Nat) (out : List Nat)
deriving DecidableEq

/-- One iteration of `handler.handleConnection`: close on a pending
`shouldClose`, on any frame-read or packet-id error and on the quit
sentinel id 122; dispatch ids 0 and 1; exhaust the packet before
looping, except when breaking out to the forwarder. -/
def stepConnection (tb : Tables) (pl : Player) (input : List Nat) : StepResult :=
  if pl.shouldClose then .closed
  else
    match GetPacketStream input with
    | .error _ => .closed
    | .ok (ps, _len) =>
      match psReadVarInt ps with
      | (.error _, _) => .closed
      | (.ok pid, ps1) =>
        if pid = 0 then
          match handlePacketID0 tb pl ps1 with
          | (pl1, ps2, out, _e) =>
            if pl1.forwardAddress ≠ [] then .fwd pl1 ps2.rest out
            else .cont pl1 (exhaustPacket ps2).2.rest out
        else if pid = 1 then
          match handlePacketID1 tb pl ps1 with
          | (pl1, ps2, out, _e) => .cont pl1 (exhaustPacket ps2).2.rest out
        else if pid = 122 then .closed
        else .cont pl (exhaustPacket ps1).2.rest []

/-- Model of `handler.forwardConnection`, the write before the two copiers start:
the very first bytes the upstream sees are
`varint(len(initialPacket.Data)) ++ initialPacket.Data`. -/
def forwardUpstreamBytes (pl : Player) : List Nat :=
  framePacket (pl.initialPacket.getD [])

/-- The spec-side selection rule for the version name: among the release
table entries whose protocol is at least the requested one, the one with
the smallest protocol; the literal future when no entry qualifies. -/
def specVersionSelect (p : Int) : List Nat :=
  match releaseNames.filter (fun r => decide (p ≤ r.1)) with
  | [] => asciiBytes ("future")
  | r :: rs => (rs.foldl (fun a b => if b.1 < a.1 then b else a) r).2

/-- The spec-side status JSON document of §6: the same shape, with the
version name selected by `specVersionSelect`. -/
def specStatusJSON (st : Status) : List Nat :=
  asciiBytes ("\x7b\"version\":\x7b\"name\":")
    ++ quoteBytes (asciiBytes ("1lann/beacon ") ++ specVersionSelect st.protocolNumber)
    ++ asciiBytes (",\"protocol\":") ++ intDecBytes st.protocolNumber
    ++ asciiBytes ("\x7d,\"players\":\x7b\"max\":") ++ intDecBytes st.maxPlayers
    ++ asciiBytes (",\"online\":") ++ intDecBytes st.onlinePlayers
    ++ asciiBytes ("\x7d,\"description\":") ++ quoteBytes st.message
    ++ asciiBytes ("\x7d")

/-- An abstract operation on a `PacketStream`: a raw bounded read of `k`
bytes, a VarInt read, or an `ExhaustPacket` call.  Every typed read the
program performs is a composition of these. -/
inductive PSOp
  | read (k : Nat)
  | readVar
  | exhaust

/-- The state transition of one `PacketStream` operation. -/
def applyOp : PSOp → PS → PS
  | .read k, ps => (psReadFull k ps).2
  | .readVar, ps => (psReadVarInt ps).2
  | .exhaust, ps => (exhaustPacket ps).2

/-- A sequence of `PacketStream` operations. -/
def runOps (ops : List PSOp) (ps : PS) : PS :=
  ops.foldl (fun ps op => applyOp op ps) ps

theorem writeVarIntAux_unfold (u : Nat) :
    writeVarIntAux u =
      if u < 128 then [u] else (u % 128 + 128) :: writeVarIntAux (u / 128) := by
  rw [writeVarIntAux]
  simp

theorem writeVarIntAux_length_pos (u : Nat) : 0 < (writeVarIntAux u).length := by
  rw [writeVarIntAux_unfold]
  split <;> simp

theorem and_127_eq_mod (b : Nat) : b &&& 127 = b % 128 := by
  have h : (127 : Nat) = 2 ^ 7 - 1 := by norm_num
  rw [h, Nat.and_pow_two_sub_one_eq_mod]

theorem and_128_of_lt (b : Nat) (h : b < 128) : b &&& 128 = 0 := by
  have h7 : (128 : Nat) = 2 ^ 7 := by norm_num
  rw [h7, Nat.and_two_pow]
  have : b.testBit 7 = false := Nat.testBit_lt_two_pow (by omega)
  simp [this]

theorem and_128_of_ge (b : Nat) (h1 : 128 ≤ b) (h2 : b < 256) : b &&& 128 = 128 := by
  have h7 : (128 : Nat) = 2 ^ 7 := by norm_num
  rw [h7, Nat.and_two_pow]
  have hb : b.testBit 7 = true := by
    rw [Nat.testBit_to_div_mod]
    simp only [decide_eq_true_eq]
    omega
  simp [hb]

theorem lor_split (u s : Nat) :
    (u % 128) <<< s ||| (u / 128) <<< (s + 7) = u <<< s := by
  apply Nat.eq_of_testBit_eq
  intro i
  have h128 : (128 : Nat) = 2 ^ 7 := by norm_num
  have hdiv : u / 128 = u >>> 7 := by
    rw [Nat.shiftRight_eq_div_pow, h128]
  rw [Nat.testBit_lor, Nat.testBit_shiftLeft, Nat.testBit_shiftLeft,
    Nat.testBit_shiftLeft, hdiv, Nat.testBit_shiftRight, h128,
    Nat.testBit_mod_two_pow]
  rcases Nat.lt_or_ge i s with h | h
  · have d1 : decide (i ≥ s) = false := by simp; omega
    have d2 : decide (i ≥ s + 7) = false := by simp; omega
    rw [d1, d2]
    simp
  · rcases Nat.lt_or_ge i (s + 7) with h2 | h2
    · have d1 : decide (i ≥ s) = true := by simp; omega
      have d2 : decide (i ≥ s + 7) = false := by simp; omega
      have d3 : decide (i - s < 7) = true := by simp; omega
      rw [d1, d2, d3]
      simp
    · have d1 : decide (i ≥ s) = true := by simp; omega
      have d2 : decide (i ≥ s + 7) = true := by simp; omega
      have d3 : decide (i - s < 7) = false := by simp; omega
      rw [d1, d2, d3]
      have : 7 + (i - (s + 7)) = i - s := by omega
      rw [this]
      simp

theorem shiftLeft_lt_2_64 (v size : Nat) (hv : v < 128) (hs : size ≤ 8) :
    v <<< (7 * size) < 2 ^ 64 := by
  rw [Nat.shiftLeft_eq]
  have h1 : 2 ^ (7 * size) ≤ 2 ^ 56 := Nat.pow_le_pow_right (by omega) (by omega)
  calc v * 2 ^ (7 * size) ≤ 127 * 2 ^ 56 := Nat.mul_le_mul (by omega) h1
    _ < 2 ^ 64 := by norm_num

theorem readLoop_write (u : Nat) :
    ∀ size num rest, size ≤ 9 → u < 2 ^ (64 - 7 * size) →
    readVarIntLoop size num (writeVarIntAux u ++ rest)
      = .ok (num ||| u <<< (7 * size), rest) := by
  induction u using Nat.strong_induction_on with
  | _ u ih =>
    intro size num rest hsize hu
    rw [writeVarIntAux_unfold]
    by_cases h : u < 128
    · rw [if_pos h]
      show readVarIntLoop size num (u :: rest) = _
      unfold readVarIntLoop
      rw [and_128_of_lt u h]
      rw [if_neg (show ¬ (size + 1 > 10) by omega), if_pos rfl]
      have hmod : ((u &&& 127) <<< (7 * size)) % 2 ^ 64 = u <<< (7 * size) := by
        rw [and_127_eq_mod, Nat.mod_eq_of_lt h]
        apply Nat.mod_eq_of_lt
        rcases Nat.lt_or_ge size 9 with h9 | h9
        · exact shiftLeft_lt_2_64 u size h (by omega)
        · have hs9 : size = 9 := by omega
          subst hs9
          rw [Nat.shiftLeft_eq]
          have hu2 : u < 2 := by simpa using hu
          calc u * 2 ^ (7 * 9) ≤ 1 * 2 ^ 63 := by
                apply Nat.mul_le_mul (by omega) (by norm_num)
            _ < 2 ^ 64 := by norm_num
      rw [hmod]
    · rw [if_neg h]
      show readVarIntLoop size num ((u % 128 + 128) :: (writeVarIntAux (u / 128) ++ rest)) = _
      have hs8 : size ≤ 8 := by
        by_contra hc
        have hs9 : size = 9 := by omega
        subst hs9
        have : u < 2 := by simpa using hu
        omega
      unfold readVarIntLoop
      have hbit : (u % 128 + 128) &&& 128 = 128 :=
        and_128_of_ge (u % 128 + 128) (by omega) (by omega)
      have hand : (u % 128 + 128) &&& 127 = u % 128 := by
        rw [and_127_eq_mod]
        omega
      rw [hbit, hand]
      rw [if_neg (show ¬ (size + 1 > 10) by omega),
        if_neg (show ¬ ((128 : Nat) = 0) by norm_num)]
      have hmod : ((u % 128) <<< (7 * size)) % 2 ^ 64 = (u % 128) <<< (7 * size) :=
        Nat.mod_eq_of_lt (shiftLeft_lt_2_64 _ _ (by omega) hs8)
      rw [hmod]
      have hdivlt : u / 128 < u := Nat.div_lt_self (by omega) (by omega)
      have hdivbound : u / 128 < 2 ^ (64 - 7 * (size + 1)) := by
        rw [Nat.div_lt_iff_lt_mul (by omega : 0 < 128)]
        calc u < 2 ^ (64 - 7 * size) := hu
          _ = 2 ^ (64 - 7 * (size + 1)) * 128 := by
            have h1 : (128 : Nat) = 2 ^ 7 := by norm_num
            rw [h1, ← Nat.pow_add]
            congr 1
            omega
      rw [ih (u / 128) hdivlt (size + 1) _ rest (by omega) hdivbound]
      congr 2
      rw [Nat.lor_assoc]
      congr 1
      have h7 : 7 * (size + 1) = 7 * size + 7 := by ring
      rw [h7, lor_split]

theorem toUInt64_lt (x : Int) : toUInt64 x < 2 ^ 64 := by
  unfold toUInt64
  have h1 : x % (2 : Int) ^ 64 < (2 : Int) ^ 64 := Int.emod_lt_of_pos _ (by norm_num)
  omega

theorem toSigned_toUInt64 (x : Int) (h1 : -(2 ^ 63) ≤ x) (h2 : x < 2 ^ 63) :
    toSigned 64 (toUInt64 x) = x := by
  unfold toSigned toUInt64
  have hm : x % (2 : Int) ^ 64 = if 0 ≤ x then x else x + 2 ^ 64 := by
    split <;> omega
  split <;> rename_i hc <;> split at hm <;> omega

theorem toUInt64_neg_ge (x : Int) (h1 : -(2 ^ 63) ≤ x) (h2 : x < 0) :
    2 ^ 63 ≤ toUInt64 x := by
  unfold toUInt64
  have hm : x % (2 : Int) ^ 64 = x + 2 ^ 64 := by omega
  omega

theorem writeVarIntAux_length_eq (k : Nat) :
    ∀ u, 128 ^ k ≤ u → u < 128 ^ (k + 1) → (writeVarIntAux u).length = k + 1 := by
  induction k with
  | zero =>
    intro u _ h2
    rw [writeVarIntAux_unfold, if_pos (by simpa using h2)]
    rfl
  | succ k ih =>
    intro u h1 h2
    have hu128 : 128 ≤ u := le_trans (Nat.le_self_pow (by omega) _) h1
    rw [writeVarIntAux_unfold, if_neg (by omega)]
    have hd1 : 128 ^ k ≤ u / 128 := by
      rw [Nat.le_div_iff_mul_le (by omega)]
      calc 128 ^ k * 128 = 128 ^ (k + 1) := by rw [Nat.pow_succ]
        _ ≤ u := h1
    have hd2 : u / 128 < 128 ^ (k + 1) := by
      rw [Nat.div_lt_iff_lt_mul (by omega)]
      calc u < 128 ^ (k + 2) := h2
        _ = 128 ^ (k + 1) * 128 := by rw [Nat.pow_succ]
    simp [ih (u / 128) hd1 hd2]

/-- C2 helper: the full plain-stream round trip with the remaining tail. -/
theorem readVarInt64_write (x : Int) (rest : List Nat)
    (h1 : -(2 ^ 63) ≤ x) (h2 : x < 2 ^ 63) :
    ReadVarInt64 (WriteVarInt64 x ++ rest) = .ok (x, rest) := by
  unfold ReadVarInt64 WriteVarInt64
  rw [readLoop_write (toUInt64 x) 0 0 rest (by omega) (by simpa using toUInt64_lt x)]
  simp [Except.map, toSigned_toUInt64 x h1 h2, Nat.zero_or]

theorem writeVarInt64_neg_length (x : Int) (h1 : -(2 ^ 63) ≤ x) (h2 : x < 0) :
    (WriteVarInt64 x).length = 10 := by
  unfold WriteVarInt64
  have ha : 128 ^ 9 ≤ toUInt64 x := by
    have := toUInt64_neg_ge x h1 h2
    norm_num at this ⊢
    omega
  have hb : toUInt64 x < 128 ^ 10 := by
    have := toUInt64_lt x
    norm_num at this ⊢
    omega
  exact writeVarIntAux_length_eq 9 _ ha hb

/-- C8 helper: with only continuation bytes and more than `10 - size`
bytes left, the loop fails with invalid data. -/
theorem readLoop_overlong :
    ∀ (l : List Nat) (size num : Nat), size ≤ 10 → 11 ≤ l.length + size →
    (∀ b ∈ l, 128 ≤ b ∧ b < 256) →
    readVarIntLoop size num l = .error .invalidData := by
  intro l
  induction l with
  | nil =>
    intro size num h1 h2 _
    simp at h2
    omega
  | cons b rest ih =>
    intro size num h1 h2 hb
    have hbb := hb b (by simp)
    unfold readVarIntLoop
    by_cases hs : size + 1 > 10
    · rw [if_pos hs]
    · rw [if_neg hs]
      rw [and_128_of_ge b hbb.1 hbb.2]
      rw [if_neg (by norm_num)]
      apply ih (size + 1) _ (by omega) (by simp at h2 ⊢; omega)
      intro x hx
      exact hb x (by simp [hx])

theorem ReadVarInt64_overlong (l : List Nat) (hlen : 10 < l.length)
    (hb : ∀ b ∈ l, 128 ≤ b ∧ b < 256) :
    ReadVarInt64 l = .error .invalidData := by
  unfold ReadVarInt64
  rw [readLoop_overlong l 0 0 (by omega) (by omega) hb]
  rfl

/-- The plain loop consumes at least one byte on success and leaves a
suffix. -/
theorem readLoop_consumes :
    ∀ (s : List Nat) size num v s2, readVarIntLoop size num s = .ok (v, s2) →
    s2.length < s.length := by
  intro s
  induction s with
  | nil =>
    intro size num v s2 h
    simp [readVarIntLoop] at h
  | cons b rest ih =>
    intro size num v s2 h
    unfold readVarIntLoop at h
    by_cases h10 : size + 1 > 10
    · rw [if_pos h10] at h
      simp at h
    · rw [if_neg h10] at h
      by_cases hbb : b &&& 128 = 0
      · rw [if_pos hbb] at h
        simp at h
        simp [h.2]
      · rw [if_neg hbb] at h
        have := ih _ _ _ _ h
        simp
        omega

/-- Budgeted reads simulate plain reads while the budget covers the
consumption. -/
theorem psLoop_sim :
    ∀ (s : List Nat) size num v s2 (n : Int),
    readVarIntLoop size num s = .ok (v, s2) →
    ((s.length : Int) - (s2.length : Int)) ≤ n →
    psReadVarIntLoop size num n s = (.ok v, n - ((s.length : Int) - (s2.length : Int)), s2) := by
  intro s
  induction s with
  | nil =>
    intro size num v s2 n h
    simp [readVarIntLoop] at h
  | cons b rest ih =>
    intro size num v s2 n h hn
    have hcons := readLoop_consumes _ _ _ _ _ h
    simp only [List.length_cons] at hcons hn
    unfold readVarIntLoop at h
    unfold psReadVarIntLoop
    rw [if_neg (show ¬ (n ≤ 0) by push_cast at hn; omega)]
    by_cases h10 : size + 1 > 10
    · rw [if_pos h10] at h
      simp at h
    · rw [if_neg h10] at h
      rw [if_neg h10]
      by_cases hb : b &&& 128 = 0
      · rw [if_pos hb] at h
        rw [if_pos hb]
        simp only [Except.ok.injEq, Prod.mk.injEq] at h
        obtain ⟨hv, hs⟩ := h
        subst hv
        subst hs
        simp only [List.length_cons]
        congr 2
        push_cast
        omega
      · rw [if_neg hb] at h
        rw [if_neg hb]
        have hcons2 := readLoop_consumes _ _ _ _ _ h
        rw [ih _ _ _ _ (n - 1) h (by push_cast at hn ⊢; omega)]
        simp only [List.length_cons]
        congr 2
        push_cast
        omega

/-- Reading exactly the prefix that is present, within budget. -/
theorem psReadFull_exact (pre post : List Nat) (k : Nat) (n : Int)
    (hk : pre.length = k) (hn : (k : Int) ≤ n) (hk0 : 0 < k) :
    psReadFull k ⟨n, pre ++ post⟩ = (.ok pre, ⟨n - (k : Int), post⟩) := by
  subst hk
  unfold psReadFull
  rw [if_neg (by omega)]
  rw [if_neg (show ¬ ((⟨n, pre ++ post⟩ : PS).n ≤ 0) by simp only; omega)]
  simp only
  have hm : min pre.length (min n.toNat (pre ++ post).length) = pre.length := by
    simp only [List.length_append]
    omega
  rw [if_pos hm, List.take_left, List.drop_left]

/-- The budgeted VarInt64 read on a canonically encoded value followed by
anything else, with enough budget. -/
theorem psReadVarInt64_write (x : Int) (tail : List Nat) (n : Int)
    (h1 : -(2 ^ 63) ≤ x) (h2 : x < 2 ^ 63)
    (hn : ((WriteVarInt64 x).length : Int) ≤ n) :
    psReadVarInt64 ⟨n, WriteVarInt64 x ++ tail⟩
      = (.ok x, ⟨n - ((WriteVarInt64 x).length : Int), tail⟩) := by
  have hplain : readVarIntLoop 0 0 (writeVarIntAux (toUInt64 x) ++ tail)
      = .ok (toUInt64 x, tail) := by
    rw [readLoop_write (toUInt64 x) 0 0 tail (by omega) (by simpa using toUInt64_lt x)]
    simp [Nat.zero_or]
  unfold psReadVarInt64
  simp only [WriteVarInt64]
  have hlen : ((writeVarIntAux (toUInt64 x) ++ tail).length : Int) - (tail.length : Int)
      = ((WriteVarInt64 x).length : Int) := by
    unfold WriteVarInt64
    simp
  rw [psLoop_sim _ 0 0 _ _ n hplain (by rw [hlen]; exact hn)]
  rw [hlen]
  show (Except.ok (toSigned 64 (toUInt64 x)),
      (⟨n - ((WriteVarInt64 x).length : Int), tail⟩ : PS))
    = (Except.ok x, (⟨n - ((WriteVarInt64 x).length : Int), tail⟩ : PS))
  rw [toSigned_toUInt64 x h1 h2]

/-- A raw read never increases the budget, keeps it nonnegative, and
consumes from the underlying stream exactly the budget decrease. -/
theorem psReadFull_inv (k : Nat) (ps : PS) :
    (psReadFull k ps).2.n ≤ ps.n ∧
    (0 ≤ ps.n → 0 ≤ (psReadFull k ps).2.n) ∧
    ((ps.rest.length : Int) - ((psReadFull k ps).2.rest.length : Int)
      = ps.n - (psReadFull k ps).2.n) := by
  unfold psReadFull
  by_cases h0 : k = 0
  · simp [h0]
  · rw [if_neg h0]
    by_cases h1 : ps.n ≤ 0
    · simp [h1]
    · rw [if_neg h1]
      simp only
      by_cases h2 : min k (min ps.n.toNat ps.rest.length) = k
      · rw [if_pos h2]
        simp only [List.length_drop]
        omega
      · rw [if_neg h2]
        by_cases h3 : min k (min ps.n.toNat ps.rest.length) = 0
        · simp [h3]
        · rw [if_neg h3]
          simp only [List.length_drop]
          omega

theorem psLoop_inv :
    ∀ (s : List Nat) size num (n : Int),
    (psReadVarIntLoop size num n s).2.1 ≤ n ∧
    (0 ≤ n → 0 ≤ (psReadVarIntLoop size num n s).2.1) ∧
    ((s.length : Int) - (((psReadVarIntLoop size num n s).2.2).length : Int)
      = n - (psReadVarIntLoop size num n s).2.1) := by
  intro s
  induction s with
  | nil =>
    intro size num n
    simp [psReadVarIntLoop]
  | cons b rest ih =>
    intro size num n
    unfold psReadVarIntLoop
    by_cases h1 : n ≤ 0
    · simp [h1]
    · rw [if_neg h1]
      by_cases h2 : size + 1 > 10
      · rw [if_pos h2]
        simp only [List.length_cons]
        constructor
        · omega
        constructor
        · omega
        push_cast
        omega
      · rw [if_neg h2]
        by_cases h3 : b &&& 128 = 0
        · rw [if_pos h3]
          simp only [List.length_cons]
          constructor
          · omega
          constructor
          · omega
          push_cast
          omega
        · rw [if_neg h3]
          have := ih (size + 1) (num ||| ((b &&& 127) <<< (7 * size)) % 2 ^ 64) (n - 1)
          simp only [List.length_cons]
          refine ⟨by omega, by omega, by omega⟩

theorem psReadVarIntS_inv (ps : PS) :
    (psReadVarInt ps).2.n ≤ ps.n ∧
    (0 ≤ ps.n → 0 ≤ (psReadVarInt ps).2.n) ∧
    ((ps.rest.length : Int) - (((psReadVarInt ps).2.rest).length : Int)
      = ps.n - (psReadVarInt ps).2.n) := by
  unfold psReadVarInt psReadVarInt64
  have h := psLoop_inv ps.rest 0 0 ps.n
  rcases hm : psReadVarIntLoop 0 0 ps.n ps.rest with ⟨res, n2, r2⟩
  rw [hm] at h
  cases res <;> simp only <;> exact h

theorem exhaustPacket_inv (ps : PS) :
    (exhaustPacket ps).2.n ≤ ps.n ∧
    (0 ≤ ps.n → 0 ≤ (exhaustPacket ps).2.n) ∧
    ((ps.rest.length : Int) - (((exhaustPacket ps).2.rest).length : Int)
      = ps.n - (exhaustPacket ps).2.n) := by
  unfold exhaustPacket
  by_cases h0 : ps.n = 0
  · simp [h0]
  · rw [if_neg h0]
    have h := psReadFull_inv ps.n.toNat ps
    rcases hm : psReadFull ps.n.toNat ps with ⟨res, ps2⟩
    rw [hm] at h
    cases res <;> simp only <;> exact h

theorem applyOp_inv (op : PSOp) (ps : PS) :
    (applyOp op ps).n ≤ ps.n ∧
    (0 ≤ ps.n → 0 ≤ (applyOp op ps).n) ∧
    ((ps.rest.length : Int) - (((applyOp op ps).rest).length : Int)
      = ps.n - (applyOp op ps).n) := by
  cases op with
  | read k => exact psReadFull_inv k ps
  | readVar => exact psReadVarIntS_inv ps
  | exhaust => exact exhaustPacket_inv ps

theorem runOps_inv (ops : List PSOp) :
    ∀ ps : PS, 0 ≤ ps.n →
    (runOps ops ps).n ≤ ps.n ∧ 0 ≤ (runOps ops ps).n ∧
    ((ps.rest.length : Int) - (((runOps ops ps).rest).length : Int)
      = ps.n - (runOps ops ps).n) := by
  induction ops with
  | nil =>
    intro ps h
    simp only [runOps, List.foldl_nil]
    exact ⟨le_refl _, h, by omega⟩
  | cons op rest ih =>
    intro ps h
    have h1 := applyOp_inv op ps
    have h2 := ih (applyOp op ps) (h1.2.1 h)
    have hrun : runOps (op :: rest) ps = runOps rest (applyOp op ps) := rfl
    rw [hrun]
    refine ⟨by omega, by omega, by omega⟩

/-- Reading exactly the prefix that is present from a plain stream. -/
theorem readFull_exact (k : Nat) (pre post : List Nat)
    (hk : pre.length = k) (h0 : 0 < k) :
    readFull k (pre ++ post) = .ok (pre, post) := by
  subst hk
  unfold readFull
  rw [if_neg (by omega)]
  rw [if_neg (by simp only [List.length_append]; omega)]
  rw [if_neg (by simp only [List.length_append]; omega)]
  rw [List.take_left, List.drop_left]

/-- Claim C2: for every 64-bit integer, decoding the bytes produced by
`WriteVarInt64` with `ReadVarInt64` returns the integer and consumes
exactly the encoding (the round trip holds over all of int64), and
negative integers encode to exactly 10 bytes. -/
theorem C2_varint64_roundtrip (x : Int) (rest : List Nat)
    (h1 : -(2 ^ 63) ≤ x) (h2 : x < 2 ^ 63) :
    ReadVarInt64 (WriteVarInt64 x ++ rest) = .ok (x, rest)
    ∧ (x < 0 → (WriteVarInt64 x).length = 10) :=
  ⟨readVarInt64_write x rest h1 h2, fun hneg => writeVarInt64_neg_length x h1 hneg⟩

/-- Witness for C2 at the concrete input `-1`. -/
theorem C2_varint64_roundtrip_witness :
    (-(2 ^ 63) : Int) ≤ -1 ∧ (-1 : Int) < 2 ^ 63 ∧
      (ReadVarInt64 (WriteVarInt64 (-1) ++ []) = .ok (-1, [])
        ∧ ((-1 : Int) < 0 → (WriteVarInt64 (-1)).length = 10)) :=
  ⟨by norm_num, by norm_num,
    C2_varint64_roundtrip (-1) [] (by norm_num) (by norm_num)⟩

/-- Claim C8: on any stream of more than 10 bytes all carrying the
continuation bit, `ReadVarInt64` fails with invalid data (the 11th byte
is read without a terminator having appeared). -/
theorem C8_varint_overlong (l : List Nat) (hlen : 10 < l.length)
    (hb : ∀ b ∈ l, 128 ≤ b ∧ b < 256) :
    ReadVarInt64 l = .error .invalidData :=
  ReadVarInt64_overlong l hlen hb

/-- Witness for C8 on eleven continuation bytes. -/
theorem C8_varint_overlong_witness :
    10 < (List.replicate 11 128 : List Nat).length ∧
      ReadVarInt64 (List.replicate 11 128) = .error .invalidData :=
  ⟨by decide, C8_varint_overlong (List.replicate 11 128) (by decide) (by decide)⟩

/-- Counterexample to claim C3: the claim predicts that `ReadUInt16` on
the wire bytes `[0, 1]` returns `1 * 256 + 0 = 256` (little-endian
decoding); the code returns `0 * 256 + 1 = 1` (big-endian decoding,
because the buffer reversal and the little-endian decode cancel). -/
theorem C3_little_endian_counterexample :
    ReadUInt16 [0, 1] = .ok (1, []) ∧ (1 : Nat) ≠ 1 * 256 + 0 :=
  ⟨rfl, by norm_num⟩

/-- Claim C3 as amended: every multi-byte integer scalar read
byte-reverses the buffer and then decodes it little-endian, so the wire
bytes are effectively decoded big-endian: `ReadUInt16` on wire bytes
`[b0, b1]` returns `b0 * 256 + b1`, and likewise for the signed reads. -/
theorem C3_reads_decode_big_endian (b0 b1 b2 b3 b4 b5 b6 b7 : Nat) (rest : List Nat) :
    decodeReadFull 2 ([b0, b1] ++ rest) = .ok ([b1, b0], rest)
    ∧ ReadUInt16 ([b0, b1] ++ rest) = .ok (b0 * 256 + b1, rest)
    ∧ ReadInt16 ([b0, b1] ++ rest) = .ok (toSigned 16 (b0 * 256 + b1), rest)
    ∧ ReadInt32 ([b0, b1, b2, b3] ++ rest)
        = .ok (toSigned 32 (((b0 * 256 + b1) * 256 + b2) * 256 + b3), rest)
    ∧ ReadInt64 ([b0, b1, b2, b3, b4, b5, b6, b7] ++ rest)
        = .ok (toSigned 64
            (((((((b0 * 256 + b1) * 256 + b2) * 256 + b3) * 256 + b4) * 256 + b5)
              * 256 + b6) * 256 + b7), rest) := by
  have h2 : readFull 2 (b0 :: b1 :: rest) = .ok ([b0, b1], rest) := by
    simpa using readFull_exact 2 [b0, b1] rest (by simp) (by omega)
  have h4 : readFull 4 (b0 :: b1 :: b2 :: b3 :: rest) = .ok ([b0, b1, b2, b3], rest) := by
    simpa using readFull_exact 4 [b0, b1, b2, b3] rest (by simp) (by omega)
  have h8 : readFull 8 (b0 :: b1 :: b2 :: b3 :: b4 :: b5 :: b6 :: b7 :: rest)
      = .ok ([b0, b1, b2, b3, b4, b5, b6, b7], rest) := by
    simpa using readFull_exact 8 [b0, b1, b2, b3, b4, b5, b6, b7] rest (by simp) (by omega)
  refine ⟨?_, ?_, ?_, ?_, ?_⟩ <;>
    simp only [ReadUInt16, ReadInt16, ReadInt32, ReadInt64, decodeReadFull,
      List.cons_append, List.nil_append, h2, h4, h8, Except.map, List.reverse_cons,
      List.reverse_nil, List.append_nil, leValue, Nat.mul_zero, Nat.add_zero] <;>
    ring_nf

/-- Claim C10: a negative VarInt frame length is not rejected by
`GetPacketStream` (only the exact value 0 is); the returned packet
stream carries the negative budget, and every nonempty read of it fails
with the I/O error EOF rather than invalid data. -/
theorem C10_negative_length_accepted (input : List Nat) (x : Int) (r : List Nat)
    (hread : ReadVarInt input = .ok (x, r)) (hneg : x < 0) :
    GetPacketStream input = .ok (⟨x, r⟩, x)
    ∧ (∀ k : Nat, 0 < k → psReadFull k ⟨x, r⟩ = (.error .eof, ⟨x, r⟩)) := by
  constructor
  · unfold GetPacketStream
    rw [hread]
    show (if x = 0 then Except.error Err.invalidData else Except.ok ((⟨x, r⟩ : PS), x))
        = Except.ok (⟨x, r⟩, x)
    rw [if_neg (by omega)]
  · intro k hk
    unfold psReadFull
    rw [if_neg (by omega)]
    rw [if_pos (by simp only; omega)]

/-- Witness for C10 on the canonical 10-byte encoding of `-1`. -/
theorem C10_negative_length_accepted_witness :
    GetPacketStream [255, 255, 255, 255, 255, 255, 255, 255, 255, 1]
        = .ok (⟨-1, []⟩, -1)
    ∧ psReadFull 1 (⟨-1, []⟩ : PS) = (.error .eof, ⟨-1, []⟩) := by
  have h := C10_negative_length_accepted
    [255, 255, 255, 255, 255, 255, 255, 255, 255, 1] (-1) []
    (by rfl) (by norm_num)
  exact ⟨h.1, h.2 1 (by norm_num)⟩

/-- Claim C9: a packet stream produced by `GetPacketStream` with a
declared length of at least 1 starts with that budget; across every
sequence of reads and exhaust calls the budget never increases and never
passes below zero, the stream never consumes more than the declared
length from the underlying connection, and a successful exhaust leaves
the budget at exactly zero. -/
theorem C9_packet_stream_budget (input : List Nat) (ps : PS) (L : Int)
    (hget : GetPacketStream input = .ok (ps, L)) (hL : 1 ≤ L) :
    ps.n = L
    ∧ (∀ ops : List PSOp, 0 ≤ (runOps ops ps).n ∧ (runOps ops ps).n ≤ L)
    ∧ (∀ (ops : List PSOp) (op : PSOp),
        (applyOp op (runOps ops ps)).n ≤ (runOps ops ps).n)
    ∧ (∀ ops : List PSOp,
        ((ps.rest.length : Int) - (((runOps ops ps).rest).length : Int)) ≤ L)
    ∧ (∀ (ops : List PSOp) (res : Nat) (ps2 : PS),
        exhaustPacket (runOps ops ps) = (.ok res, ps2) → ps2.n = 0) := by
  have hn : ps.n = L := by
    unfold GetPacketStream at hget
    rcases hri : ReadVarInt input with e | ⟨len, r⟩ <;> rw [hri] at hget
    · exact Except.noConfusion (hget : (Except.error e : Except Err (PS × Int)) = .ok (ps, L))
    · have hget2 : (if len = 0 then (Except.error Err.invalidData : Except Err (PS × Int))
          else Except.ok (⟨len, r⟩, len)) = Except.ok (ps, L) := hget
      by_cases h0 : len = 0
      · rw [if_pos h0] at hget2
        exact Except.noConfusion hget2
      · rw [if_neg h0] at hget2
        simp at hget2
        rw [← hget2.1, ← hget2.2]
  have hpos : 0 ≤ ps.n := by omega
  refine ⟨hn, ?_, ?_, ?_, ?_⟩
  · intro ops
    have := runOps_inv ops ps hpos
    omega
  · intro ops op
    exact (applyOp_inv op (runOps ops ps)).1
  · intro ops
    have := runOps_inv ops ps hpos
    omega
  · intro ops res ps2 hexh
    have hrun := runOps_inv ops ps hpos
    set q := runOps ops ps with hq
    unfold exhaustPacket at hexh
    by_cases h0 : q.n = 0
    · rw [if_pos h0] at hexh
      have : ps2 = q := by
        injection hexh with _ h
        exact h.symm
      rw [this, h0]
    · rw [if_neg h0] at hexh
      have hqpos : 0 < q.n := by omega
      rcases hrf : psReadFull q.n.toNat q with ⟨res2, q2⟩
      rw [hrf] at hexh
      have hfull := psReadFull_inv q.n.toNat q
      rw [hrf] at hfull
      cases res2 with
      | ok d =>
        simp only at hexh
        have hq2 : ps2 = q2 := by
          injection hexh with _ h
          exact h.symm
        subst hq2
        unfold psReadFull at hrf
        rw [if_neg (by omega), if_neg (by omega)] at hrf
        by_cases hm : min q.n.toNat (min q.n.toNat q.rest.length) = q.n.toNat
        · rw [if_pos hm] at hrf
          injection hrf with _ h
          rw [← h]
          simp only
          omega
        · rw [if_neg hm] at hrf
          by_cases hm0 : min q.n.toNat (min q.n.toNat q.rest.length) = 0
          · rw [if_pos hm0] at hrf
            simp at hrf
          · rw [if_neg hm0] at hrf
            simp at hrf
      | error e =>
        simp only at hexh
        injection hexh with h _
        cases h

/-- Witness for C9 on a two-byte frame. -/
theorem C9_packet_stream_budget_witness :
    (⟨2, [7, 7]⟩ : PS).n = 2
    ∧ 0 ≤ (runOps [PSOp.read 1, PSOp.exhaust] ⟨2, [7, 7]⟩).n
    ∧ (((⟨2, [7, 7]⟩ : PS).rest.length : Int)
        - (((runOps [PSOp.read 1] ⟨2, [7, 7]⟩).rest).length : Int)) ≤ 2 := by
  have h := C9_packet_stream_budget [2, 7, 7] ⟨2, [7, 7]⟩ 2 (by rfl) (by norm_num)
  exact ⟨h.1, (h.2.1 [PSOp.read 1, PSOp.exhaust]).1, h.2.2.2.1 [PSOp.read 1]⟩

/-- Claim C7: the routing tables keep handler and forwarder bindings
mutually exclusive — binding one for a hostname removes the other — a
`ClearHandlers` removes both, and none of the three operations changes
the status map. -/
theorem C7_routing_exclusive (tb : Tables) (h a : List Nat) (fn : Player → List Nat) :
    ((Handle (Forward tb [h] a) [h] fn).forwarders (goToLower h) = none
      ∧ (Handle (Forward tb [h] a) [h] fn).handlers (goToLower h) = some fn)
    ∧ ((Forward (Handle tb [h] fn) [h] a).handlers (goToLower h) = none
      ∧ (Forward (Handle tb [h] fn) [h] a).forwarders (goToLower h) = some a)
    ∧ ((ClearHandlers tb [h]).handlers (goToLower h) = none
      ∧ (ClearHandlers tb [h]).forwarders (goToLower h) = none)
    ∧ (Handle tb [h] fn).statuses = tb.statuses
    ∧ (Forward tb [h] a).statuses = tb.statuses
    ∧ (ClearHandlers tb [h]).statuses = tb.statuses := by
  simp only [Handle, Forward, ClearHandlers, List.foldl_cons, List.foldl_nil,
    mapInsert, mapDelete]
  refine ⟨⟨?_, ?_⟩, ⟨?_, ?_⟩, ⟨?_, ?_⟩, ?_, ?_, ?_⟩ <;>
    repeat' split <;> simp_all [mapDelete, mapInsert]

theorem toUInt64_toSigned (v : Nat) (hv : v < 2 ^ 64) :
    toUInt64 (toSigned 64 v) = v := by
  unfold toUInt64 toSigned
  have hmod : v % 2 ^ 64 = v := Nat.mod_eq_of_lt hv
  rw [hmod]
  split <;> omega

/-- Small nonnegative values encode to a single VarInt byte. -/
theorem writeVarInt_small (v : Int) (h0 : 0 ≤ v) (h1 : v < 128) :
    WriteVarInt v = [v.toNat] := by
  unfold WriteVarInt WriteVarInt64
  have hu : toUInt64 v = v.toNat := by
    unfold toUInt64
    omega
  rw [hu, writeVarIntAux_unfold, if_pos (by omega)]

/-- Claim C6: with `showConnection` true, `HandlePingPacket` reads the
8-byte int64 nonce and echoes exactly those bytes back inside a framed
packet with id 0x01; with `showConnection` false it consumes the nonce
and writes nothing. -/
theorem C6_ping_echo (b0 b1 b2 b3 b4 b5 b6 b7 : Nat) (rest : List Nat)
    (st st2 : Status)
    (h0 : b0 < 256) (h1 : b1 < 256) (h2 : b2 < 256) (h3 : b3 < 256)
    (h4 : b4 < 256) (h5 : b5 < 256) (h6 : b6 < 256) (h7 : b7 < 256)
    (hshow : st.showConnection = true) (hshow2 : st2.showConnection = false) :
    HandlePingPacket st ([b0, b1, b2, b3, b4, b5, b6, b7] ++ rest)
      = (.ok (), rest, 9 :: 1 :: [b0, b1, b2, b3, b4, b5, b6, b7])
    ∧ HandlePingPacket st2 ([b0, b1, b2, b3, b4, b5, b6, b7] ++ rest)
      = (.ok (), rest, []) := by
  have hrf : readFull 8 (b0 :: b1 :: b2 :: b3 :: b4 :: b5 :: b6 :: b7 :: rest)
      = .ok ([b0, b1, b2, b3, b4, b5, b6, b7], rest) := by
    simpa using readFull_exact 8 [b0, b1, b2, b3, b4, b5, b6, b7] rest (by simp) (by omega)
  have hread : ReadInt64 ([b0, b1, b2, b3, b4, b5, b6, b7] ++ rest)
      = .ok (toSigned 64 (leValue [b7, b6, b5, b4, b3, b2, b1, b0]), rest) := by
    simp only [ReadInt64, decodeReadFull, List.cons_append, List.nil_append, hrf,
      Except.map, List.reverse_cons, List.reverse_nil, List.nil_append,
      List.append_nil, List.cons_append]
  have hv : leValue [b7, b6, b5, b4, b3, b2, b1, b0] < 2 ^ 64 := by
    simp only [leValue]
    omega
  have hecho : WriteInt64 (toSigned 64 (leValue [b7, b6, b5, b4, b3, b2, b1, b0]))
      = [b0, b1, b2, b3, b4, b5, b6, b7] := by
    unfold WriteInt64
    rw [toUInt64_toSigned _ hv]
    simp only [leValue, bePut, Nat.mul_zero, Nat.add_zero]
    refine List.cons_eq_cons.mpr ⟨by omega, ?_⟩
    refine List.cons_eq_cons.mpr ⟨by omega, ?_⟩
    refine List.cons_eq_cons.mpr ⟨by omega, ?_⟩
    refine List.cons_eq_cons.mpr ⟨by omega, ?_⟩
    refine List.cons_eq_cons.mpr ⟨by omega, ?_⟩
    refine List.cons_eq_cons.mpr ⟨by omega, ?_⟩
    refine List.cons_eq_cons.mpr ⟨by omega, ?_⟩
    refine List.cons_eq_cons.mpr ⟨by omega, rfl⟩
  constructor
  · unfold HandlePingPacket
    rw [hshow]
    simp only [Bool.not_true, Bool.false_eq_true, if_false, hread]
    have hframe : framePacket (WriteVarInt 1
        ++ WriteInt64 (toSigned 64 (leValue [b7, b6, b5, b4, b3, b2, b1, b0])))
        = 9 :: 1 :: [b0, b1, b2, b3, b4, b5, b6, b7] := by
      rw [hecho, writeVarInt_small 1 (by norm_num) (by norm_num)]
      simp only [Int.toNat_one]
      unfold framePacket
      rw [show ((([(1 : Nat)] ++ [b0, b1, b2, b3, b4, b5, b6, b7]).length : Nat) : Int)
          = 9 by simp]
      rw [writeVarInt_small 9 (by norm_num) (by norm_num)]
      simp
    rw [hframe]
  · unfold HandlePingPacket
    rw [hshow2]
    simp only [Bool.not_false, if_true, hread]

/-- Witness for C6 at a concrete nonce and two concrete statuses. -/
theorem C6_ping_echo_witness :
    HandlePingPacket ⟨0, 0, [], true, 0⟩ ([1, 2, 3, 4, 5, 6, 7, 8] ++ [77])
      = (.ok (), [77], 9 :: 1 :: [1, 2, 3, 4, 5, 6, 7, 8])
    ∧ HandlePingPacket ⟨0, 0, [], false, 0⟩ ([1, 2, 3, 4, 5, 6, 7, 8] ++ [77])
      = (.ok (), [77], []) :=
  C6_ping_echo 1 2 3 4 5 6 7 8 [77] ⟨0, 0, [], true, 0⟩ ⟨0, 0, [], false, 0⟩
    (by norm_num) (by norm_num) (by norm_num) (by norm_num)
    (by norm_num) (by norm_num) (by norm_num) (by norm_num) rfl rfl

/-- The linear scan of the ascending release table computes exactly the
spec rule: the smallest-protocol entry at least the requested protocol,
else the literal future. -/
theorem getReleaseName_eq_specVersionSelect (p : Int) :
    getReleaseName p = specVersionSelect p := by
  unfold getReleaseName getReleaseNameAux releaseNames specVersionSelect
  by_cases c1 : p ≤ 4
  · have c2 : p ≤ 5 := by omega
    have c3 : p ≤ 47 := by omega
    have c4 : p ≤ 107 := by omega
    simp [getReleaseNameAux, List.filter, c1, c2, c3, c4]
  · by_cases c2 : p ≤ 5
    · have c3 : p ≤ 47 := by omega
      have c4 : p ≤ 107 := by omega
      simp [getReleaseNameAux, List.filter, c1, c2, c3, c4]
    · by_cases c3 : p ≤ 47
      · have c4 : p ≤ 107 := by omega
        simp [getReleaseNameAux, List.filter, c1, c2, c3, c4]
      · by_cases c4 : p ≤ 107
        · simp [getReleaseNameAux, List.filter, c1, c2, c3, c4]
        · simp [getReleaseNameAux, List.filter, c1, c2, c3, c4]

/-- Claim C5: `WriteHandshakeResponse` emits a framed packet whose id is
0x00 (the one-byte VarInt `[0]`) and whose single string field is the
status JSON document of the specified shape, with the version name
selected by the spec rule (smallest release-table protocol at least the
requested one, else the literal future), prefixed by the beacon banner. -/
theorem C5_status_json_shape (st : Status) :
    writeHandshakeResponseBytes st
      = framePacket (WriteVarInt 0 ++ writeStringBytes (specStatusJSON st))
    ∧ WriteVarInt 0 = [0]
    ∧ (∀ p : Int, getReleaseName p = specVersionSelect p) := by
  have hjson : statusJSONBytes st = specStatusJSON st := by
    unfold statusJSONBytes specStatusJSON
    rw [getReleaseName_eq_specVersionSelect]
  refine ⟨?_, ?_, fun p => getReleaseName_eq_specVersionSelect p⟩
  · unfold writeHandshakeResponseBytes writeHandshakeResponsePacket
    rw [hjson]
  · rw [writeVarInt_small 0 (le_refl 0) (by norm_num)]
    norm_num

theorem writeVarIntAux_length_le (k : Nat) :
    ∀ u, u < 128 ^ (k + 1) → (writeVarIntAux u).length ≤ k + 1 := by
  induction k with
  | zero =>
    intro u h
    rw [writeVarIntAux_unfold, if_pos (by simpa using h)]
    simp
  | succ k ih =>
    intro u h
    rw [writeVarIntAux_unfold]
    by_cases h128 : u < 128
    · rw [if_pos h128]
      simp
    · rw [if_neg h128]
      have hd : u / 128 < 128 ^ (k + 1) := by
        rw [Nat.div_lt_iff_lt_mul (by omega)]
        calc u < 128 ^ (k + 2) := h
          _ = 128 ^ (k + 1) * 128 := by rw [Nat.pow_succ]
      simpa using ih (u / 128) hd

theorem writeVarInt64_length_le (x : Int) : (WriteVarInt64 x).length ≤ 10 := by
  unfold WriteVarInt64
  have h := toUInt64_lt x
  have h10 : toUInt64 x < 128 ^ 10 := by
    have : (2 : Nat) ^ 64 ≤ 128 ^ 10 := by norm_num
    omega
  exact writeVarIntAux_length_le 9 _ h10

/-- Budgeted `ReadString` of a canonically written string field. -/
theorem psReadString_write (a tail : List Nat) (n : Int)
    (hlen : (a.length : Int) < 2 ^ 63)
    (hn : ((writeStringBytes a).length : Int) ≤ n) :
    psReadString ⟨n, writeStringBytes a ++ tail⟩
      = (.ok a, ⟨n - ((writeStringBytes a).length : Int), tail⟩) := by
  have hws : writeStringBytes a ++ tail = WriteVarInt64 (a.length : Int) ++ (a ++ tail) := by
    unfold writeStringBytes WriteVarInt
    rw [List.append_assoc]
  have hsplit : (writeStringBytes a).length
      = (WriteVarInt64 (a.length : Int)).length + a.length := by
    unfold writeStringBytes WriteVarInt
    simp
  have hlenb : ((WriteVarInt64 (a.length : Int)).length : Int) ≤ n := by omega
  have hv := psReadVarInt64_write (a.length : Int) (a ++ tail) n
    (by omega) hlen hlenb
  unfold psReadString psReadVarInt
  rw [hws]
  simp only [hv]
  rw [if_neg (by omega)]
  by_cases ha : a = []
  · subst ha
    unfold psReadFull
    rw [if_pos (by simp)]
    simp only [List.nil_append]
    simp only [List.length_nil, Nat.add_zero, Nat.cast_zero] at hsplit
    congr 2
    simp only [List.length_nil, Nat.cast_zero]
    omega
  · rw [show ((a.length : Nat) : Int).toNat = a.length by omega]
    rw [psReadFull_exact a tail a.length (n - ((WriteVarInt64 (a.length : Int)).length : Int))
      rfl (by omega) (by simpa using List.length_pos.mpr ha)]
    congr 2
    omega

/-- Budgeted `ReadUInt16` of a canonically written big-endian port. -/
theorem psReadUInt16_write (port : Nat) (tail : List Nat) (n : Int)
    (hport : port < 2 ^ 16) (hn : 2 ≤ n) :
    psReadUInt16 ⟨n, WriteUInt16 port ++ tail⟩ = (.ok port, ⟨n - 2, tail⟩) := by
  have hb : WriteUInt16 port = [port / 256 % 256, port % 256] := by
    simp [WriteUInt16, bePut]
  have hrf := psReadFull_exact [port / 256 % 256, port % 256] tail 2 n (by simp) hn
    (by omega)
  unfold psReadUInt16 psDecodeReadFull
  rw [hb]
  simp only [hrf]
  have hle : leValue [port % 256, port / 256 % 256] = port := by
    simp only [leValue]
    omega
  simp only [List.reverse_cons, List.reverse_nil, List.nil_append, List.cons_append,
    List.append_nil]
  rw [show ([port % 256, port / 256 % 256] : List Nat)
      = [port / 256 % 256, port % 256].reverse by simp]
  simp only [List.reverse_cons, List.reverse_nil, List.nil_append, List.cons_append,
    List.append_nil]
  rw [hle]
  norm_num

theorem writeVarInt64_length_pos (x : Int) : 0 < (WriteVarInt64 x).length :=
  writeVarIntAux_length_pos (toUInt64 x)

theorem writeUInt16_length (port : Nat) : (WriteUInt16 port).length = 2 := by
  simp [WriteUInt16, bePut]

/-- Budgeted read of a canonically encoded handshake body with the exact
byte budget: all four fields parse back and the budget is exactly
consumed. -/
theorem psReadHandshake_write (pv ns : Int) (addr : List Nat) (port : Nat)
    (tail : List Nat)
    (hpv1 : -(2 ^ 63) ≤ pv) (hpv2 : pv < 2 ^ 63)
    (hns1 : -(2 ^ 63) ≤ ns) (hns2 : ns < 2 ^ 63)
    (haddr : (addr.length : Int) < 2 ^ 63) (hport : port < 2 ^ 16) :
    psReadHandshakePacket
      ⟨(((WriteVarInt64 pv ++ writeStringBytes addr ++ WriteUInt16 port
          ++ WriteVarInt64 ns).length : Nat) : Int),
        (WriteVarInt64 pv ++ writeStringBytes addr ++ WriteUInt16 port
          ++ WriteVarInt64 ns) ++ tail⟩
      = ((⟨pv, addr, port, ns⟩, none), ⟨0, tail⟩) := by
  have hc2 : (WriteUInt16 port).length = 2 := writeUInt16_length port
  have hN : (((WriteVarInt64 pv ++ writeStringBytes addr ++ WriteUInt16 port
        ++ WriteVarInt64 ns).length : Nat) : Int)
      = ((WriteVarInt64 pv).length : Int) + ((writeStringBytes addr).length : Int)
        + 2 + ((WriteVarInt64 ns).length : Int) := by
    simp only [List.length_append, hc2]
    push_cast
    ring
  have hassoc : (WriteVarInt64 pv ++ writeStringBytes addr ++ WriteUInt16 port
        ++ WriteVarInt64 ns) ++ tail
      = WriteVarInt64 pv ++ (writeStringBytes addr
          ++ (WriteUInt16 port ++ (WriteVarInt64 ns ++ tail))) := by
    simp [List.append_assoc]
  unfold psReadHandshakePacket psReadVarInt
  rw [hassoc, hN]
  have h1 := psReadVarInt64_write pv
    (writeStringBytes addr ++ (WriteUInt16 port ++ (WriteVarInt64 ns ++ tail)))
    (((WriteVarInt64 pv).length : Int) + ((writeStringBytes addr).length : Int)
      + 2 + ((WriteVarInt64 ns).length : Int))
    hpv1 hpv2 (by
      have := writeVarInt64_length_pos ns
      omega)
  simp only [h1]
  have h2 := psReadString_write addr (WriteUInt16 port ++ (WriteVarInt64 ns ++ tail))
    (((WriteVarInt64 pv).length : Int) + ((writeStringBytes addr).length : Int)
      + 2 + ((WriteVarInt64 ns).length : Int) - ((WriteVarInt64 pv).length : Int))
    haddr (by
      have := writeVarInt64_length_pos ns
      omega)
  simp only [h2]
  have h3 := psReadUInt16_write port (WriteVarInt64 ns ++ tail)
    (((WriteVarInt64 pv).length : Int) + ((writeStringBytes addr).length : Int)
      + 2 + ((WriteVarInt64 ns).length : Int) - ((WriteVarInt64 pv).length : Int)
      - ((writeStringBytes addr).length : Int))
    hport (by
      have := writeVarInt64_length_pos ns
      omega)
  simp only [h3]
  have h4 := psReadVarInt64_write ns tail
    (((WriteVarInt64 pv).length : Int) + ((writeStringBytes addr).length : Int)
      + 2 + ((WriteVarInt64 ns).length : Int) - ((WriteVarInt64 pv).length : Int)
      - ((writeStringBytes addr).length : Int) - 2)
    hns1 hns2 (by omega)
  simp only [h4]
  congr 2
  omega

/-- Evaluating `GetPacketStream` on a canonically framed packet followed by more
stream: the budget is the payload length and the underlying cursor sits
at the payload. -/
theorem getPacketStream_frame (d rest : List Nat) (h0 : d ≠ [])
    (hlen : (d.length : Int) < 2 ^ 63) :
    GetPacketStream (framePacket d ++ rest)
      = .ok (⟨(d.length : Int), d ++ rest⟩, (d.length : Int)) := by
  have h : ReadVarInt (framePacket d ++ rest) = .ok ((d.length : Int), d ++ rest) := by
    unfold ReadVarInt framePacket WriteVarInt
    rw [List.append_assoc]
    exact readVarInt64_write (d.length : Int) (d ++ rest) (by omega) hlen
  unfold GetPacketStream
  simp only [h]
  rw [if_neg (by
    have : 0 < d.length := List.length_pos.mpr h0
    omega)]

theorem writeVarInt64_zero_length : (WriteVarInt64 (0 : Int)).length = 1 := by
  rw [show WriteVarInt64 (0 : Int) = WriteVarInt 0 from rfl,
    writeVarInt_small 0 (le_refl 0) (by norm_num)]
  rfl

/-- Evaluating `handlePacketID0` in state 1 on a canonical handshake body whose
hostname is bound in the forwarders table: the handshake is re-serialized
into the initial packet, the forward address and next state are taken
over, nothing is written, and the packet budget is exactly consumed. -/
theorem handle0_forward (tb : Tables) (pl : Player) (pv ns : Int)
    (addr : List Nat) (port : Nat) (fa rest : List Nat)
    (hstate : pl.state = 1)
    (hpv1 : -(2 ^ 63) ≤ pv) (hpv2 : pv < 2 ^ 63)
    (hns1 : -(2 ^ 63) ≤ ns) (hns2 : ns < 2 ^ 63)
    (haddr : (addr.length : Int) < 2 ^ 63) (hport : port < 2 ^ 16)
    (hfwd : tb.forwarders (goToLower addr) = some fa) :
    handlePacketID0 tb pl
      ⟨(((WriteVarInt64 pv ++ writeStringBytes addr ++ WriteUInt16 port
          ++ WriteVarInt64 ns).length : Nat) : Int),
        (WriteVarInt64 pv ++ writeStringBytes addr ++ WriteUInt16 port
          ++ WriteVarInt64 ns) ++ rest⟩
      = ({ pl with
            hostname := goToLower addr,
            initialPacket := some (WriteVarInt64 0 ++ WriteVarInt64 pv
              ++ writeStringBytes addr ++ WriteUInt16 port ++ WriteVarInt64 ns),
            forwardAddress := fa,
            state := ns }, ⟨0, rest⟩, [], none) := by
  have hpos : 0 < (WriteVarInt64 pv ++ writeStringBytes addr ++ WriteUInt16 port
      ++ WriteVarInt64 ns).length := by
    simp only [List.length_append]
    have := writeVarInt64_length_pos pv
    omega
  unfold handlePacketID0
  rw [if_neg (by dsimp only; omega)]
  rw [if_pos hstate]
  simp only [psReadHandshake_write pv ns addr port rest hpv1 hpv2 hns1 hns2 haddr hport]
  simp only [hfwd]
  rfl

/-- Claim C1: a state-1 connection that sends a canonically encoded
handshake frame for a hostname bound in the forwarders table leaves the
loop for the forwarder with `initialPacket` equal to the re-serialized
handshake payload — bit-identical to the payload the client sent — and
the very first bytes the forwarder writes to the upstream are
`varint(len(initialPacket)) ++ initialPacket`, i.e. exactly the frame
the client sent. -/
theorem C1_forward_handshake (tb : Tables) (pl : Player) (pv ns : Int)
    (addr : List Nat) (port : Nat) (fa rest : List Nat)
    (hsc : pl.shouldClose = false) (hstate : pl.state = 1)
    (hpv1 : -(2 ^ 63) ≤ pv) (hpv2 : pv < 2 ^ 63)
    (hns1 : -(2 ^ 63) ≤ ns) (hns2 : ns < 2 ^ 63)
    (haddr : (addr.length : Int) + 64 < 2 ^ 63) (hport : port < 2 ^ 16)
    (hfwd : tb.forwarders (goToLower addr) = some fa) (hfa : fa ≠ []) :
    stepConnection tb pl
      (framePacket (WriteVarInt 0 ++ WriteVarInt pv ++ writeStringBytes addr
        ++ WriteUInt16 port ++ WriteVarInt ns) ++ rest)
      = .fwd { pl with
          hostname := goToLower addr,
          initialPacket := some (WriteVarInt 0 ++ WriteVarInt pv ++ writeStringBytes addr
            ++ WriteUInt16 port ++ WriteVarInt ns),
          forwardAddress := fa,
          state := ns } rest []
    ∧ forwardUpstreamBytes { pl with
          hostname := goToLower addr,
          initialPacket := some (WriteVarInt 0 ++ WriteVarInt pv ++ writeStringBytes addr
            ++ WriteUInt16 port ++ WriteVarInt ns),
          forwardAddress := fa,
          state := ns }
        = framePacket (WriteVarInt 0 ++ WriteVarInt pv ++ writeStringBytes addr
            ++ WriteUInt16 port ++ WriteVarInt ns) := by
  constructor
  · simp only [WriteVarInt]
    have hlenpv := writeVarInt64_length_le pv
    have hlenns := writeVarInt64_length_le ns
    have hlenL := writeVarInt64_length_le ((addr.length : Nat) : Int)
    have hlen0 := writeVarInt64_zero_length
    have hc2 := writeUInt16_length port
    have hws : (writeStringBytes addr).length
        = (WriteVarInt64 ((addr.length : Nat) : Int)).length + addr.length := by
      unfold writeStringBytes WriteVarInt
      simp
    have hplen : (WriteVarInt64 0 ++ WriteVarInt64 pv ++ writeStringBytes addr
        ++ WriteUInt16 port ++ WriteVarInt64 ns).length
        = 1 + ((WriteVarInt64 pv ++ writeStringBytes addr ++ WriteUInt16 port
            ++ WriteVarInt64 ns).length) := by
      simp only [List.length_append, hlen0]
      omega
    have hbound : ((WriteVarInt64 0 ++ WriteVarInt64 pv ++ writeStringBytes addr
        ++ WriteUInt16 port ++ WriteVarInt64 ns).length : Int) < 2 ^ 63 := by
      simp only [List.length_append, hlen0, hc2, hws]
      push_cast
      omega
    have hne : (WriteVarInt64 0 ++ WriteVarInt64 pv ++ writeStringBytes addr
        ++ WriteUInt16 port ++ WriteVarInt64 ns) ≠ [] := by
      simp only [ne_eq, List.append_eq_nil]
      intro hcon
      have := writeVarInt64_length_pos 0
      rw [hcon.1.1.1.1] at this
      simp at this
    have hget := getPacketStream_frame
      (WriteVarInt64 0 ++ WriteVarInt64 pv ++ writeStringBytes addr
        ++ WriteUInt16 port ++ WriteVarInt64 ns) rest hne hbound
    unfold stepConnection
    rw [hsc]
    rw [if_neg (by simp)]
    simp only [hget]
    have hassoc1 : (WriteVarInt64 0 ++ WriteVarInt64 pv ++ writeStringBytes addr
        ++ WriteUInt16 port ++ WriteVarInt64 ns) ++ rest
        = WriteVarInt64 0 ++ ((WriteVarInt64 pv ++ writeStringBytes addr
            ++ WriteUInt16 port ++ WriteVarInt64 ns) ++ rest) := by
      simp [List.append_assoc]
    rw [hassoc1]
    have hid := psReadVarInt64_write 0
      ((WriteVarInt64 pv ++ writeStringBytes addr ++ WriteUInt16 port
        ++ WriteVarInt64 ns) ++ rest)
      ((WriteVarInt64 0 ++ WriteVarInt64 pv ++ writeStringBytes addr
        ++ WriteUInt16 port ++ WriteVarInt64 ns).length : Int)
      (by norm_num) (by norm_num)
      (by rw [hlen0, hplen]; push_cast; omega)
    rw [show psReadVarInt = psReadVarInt64 from rfl]
    simp only [hid, if_true]
    have hbud : (((WriteVarInt64 0 ++ WriteVarInt64 pv ++ writeStringBytes addr
        ++ WriteUInt16 port ++ WriteVarInt64 ns).length : Nat) : Int)
        - ((WriteVarInt64 (0 : Int)).length : Int)
        = (((WriteVarInt64 pv ++ writeStringBytes addr ++ WriteUInt16 port
            ++ WriteVarInt64 ns).length : Nat) : Int) := by
      rw [hlen0, hplen]
      push_cast
      omega
    rw [hbud]
    have hh0 := handle0_forward tb pl pv ns addr port fa rest hstate hpv1 hpv2
      hns1 hns2 (by omega) hport hfwd
    simp only [hh0]
    rw [if_pos hfa]
    simp [hsc]
  · rfl

/-- Witness for C1: a concrete forwarded handshake (protocol 47,
hostname a, port 25565, next state 2). -/
theorem C1_forward_handshake_witness :
    stepConnection
      ⟨fun _ => none, fun _ => none, fun h => if h = [97] then some [120] else none⟩
      ⟨[], [], [], false, [], none, 1⟩
      (framePacket (WriteVarInt 0 ++ WriteVarInt 47 ++ writeStringBytes [97]
        ++ WriteUInt16 25565 ++ WriteVarInt 2) ++ [])
      = .fwd ⟨[], [], [97], false, [120],
          some (WriteVarInt 0 ++ WriteVarInt 47 ++ writeStringBytes [97]
            ++ WriteUInt16 25565 ++ WriteVarInt 2), 2⟩ [] [] := by
  have h := C1_forward_handshake
    ⟨fun _ => none, fun _ => none, fun h => if h = [97] then some [120] else none⟩
    ⟨[], [], [], false, [], none, 1⟩ 47 2 [97] 25565 [120] []
    rfl rfl (by norm_num) (by norm_num) (by norm_num) (by norm_num)
    (by norm_num) (by norm_num) (by decide) (by decide)
  exact h.1

/-- Counterexample to claim C4: a framed packet whose handshake body has
a negative string length produces `INVALID_DATA` inside
`ReadHandshakePacket`, yet the connection handler does not close — it
logs, keeps the zero-value handshake, and continues the loop. -/
theorem C4_invalid_handshake_continues :
    stepConnection ⟨fun _ => none, fun _ => none, fun _ => none⟩
        ⟨[], [], [], false, [], none, 1⟩
        [12, 0, 0, 255, 255, 255, 255, 255, 255, 255, 255, 255, 1]
      = .cont ⟨[], [], [], false, [], none, 1⟩ [] []
    ∧ (psReadHandshakePacket
        ⟨11, [0, 255, 255, 255, 255, 255, 255, 255, 255, 255, 1]⟩).1.2
      = some .invalidData
    ∧ (StepResult.cont ⟨[], [], [], false, [], none, 1⟩ [] []) ≠ .closed := by
  refine ⟨by decide, by decide, by decide⟩

/-- Claim C4 as amended: an error (in particular `INVALID_DATA`) while
reading the frame length or the packet id closes the connection with no
recovery; but an `INVALID_DATA` inside the packet-0 payload — such as a
negative handshake string length — is only logged and the loop
continues with the zero-value handshake (see the counterexample). -/
theorem C4_frame_errors_close (tb : Tables) (pl : Player) (input : List Nat) :
    (∀ e, GetPacketStream input = .error e → stepConnection tb pl input = .closed)
    ∧ (∀ ps L e ps2, GetPacketStream input = .ok (ps, L) →
        psReadVarInt ps = (.error e, ps2) → stepConnection tb pl input = .closed) := by
  constructor
  · intro e hge
    unfold stepConnection
    by_cases hsc : pl.shouldClose = true
    · rw [if_pos hsc]
    · rw [if_neg hsc]
      simp only [hge]
  · intro ps L e ps2 hok hid
    unfold stepConnection
    by_cases hsc : pl.shouldClose = true
    · rw [if_pos hsc]
    · rw [if_neg hsc]
      simp only [hok, hid]

/-- Witness for C4 (amended): the zero-length frame closes the
connection. -/
theorem C4_frame_errors_close_witness :
    stepConnection ⟨fun _ => none, fun _ => none, fun _ => none⟩
        ⟨[], [], [], false, [], none, 1⟩ [0]
      = .closed :=
  (C4_frame_errors_close ⟨fun _ => none, fun _ => none, fun _ => none⟩
    ⟨[], [], [], false, [], none, 1⟩ [0]).1 Err.invalidData (by rfl)

end Beacon
